/-
  Verification of the natural-language specification of
  `measurement_error_filtering` (src/simulator/src/main.rs) against a
  shallow embedding of its code in Lean 4.

  Embedding conventions:
  * `f64` values are modelled as exact numbers: as `ℚ` for the parts of the
    program that only use field operations and absolute value
    (`Measure::new`, `Measure::simulate`, `Measure::mean_difference`), and
    as `ℝ` for `clean_mae_calc`, which uses `erf`, `exp` and `sqrt`.
    Division by zero is total (`x / 0 = 0`) as usual in Lean; where a
    claim's truth depends on IEEE `NaN` propagation this is flagged in the
    results rather than hidden.
  * Randomness is modelled by an explicit stream `draw : ℕ → ℚ` of samples;
    the claims under study only concern error behaviour and elementwise
    structure, never the distribution of the draws.
  * Library functions used by the code but not part of the repository are
    modelled from their documented contracts:
    - `rand_distr::Uniform::new_inclusive` panics when `low > high`;
    - `rand_distr::Normal::new` returns an error when `std_dev < 0`, which
      the code turns into a panic via `.unwrap()`;
    - `statrs::function::erf::erf` is the mathematical error function,
      `erf x = 2/√π ∫ t in 0..x, exp (-t²)`;
    - `interp::interp` is NumPy-style linear interpolation on a table:
      queries at or below the first x-entry return the first y-entry,
      queries beyond the last x-entry return the last y-entry, and interior
      queries are linearly interpolated on the bracketing segment.
    Panics are modelled as `Except.error`.
-/
import Mathlib

set_option maxHeartbeats 1000000

/-! ## Embedding of `Measure` (src/simulator/src/main.rs, lines 17-51) -/

/-- Panic raised by `Uniform::new_inclusive` when `low > high`
(modelled from the rand_distr contract). -/
def uniformPanicMsg : String := "Uniform new_inclusive called with low > high"

/-- Error raised by `Normal::new` when `std_dev < 0`, turned into a panic by
`.unwrap()` in `Measure::simulate` (modelled from the rand_distr contract). -/
def normalPanicMsg : String := "Normal new failed: std_dev < 0"

/-- `Measure::new(size, low, high)` (main.rs lines 19-28): constructs a
`Uniform::new_inclusive(low, high)` distribution (which panics when
`low > high`) and then fills a vector with `size` draws from it.  The
random stream is `draw`.  There is no validation of `size`. -/
def Measure.new (size : ℕ) (low high : ℚ) (draw : ℕ → ℚ) : Except String (List ℚ) :=
  if high < low then Except.error uniformPanicMsg
  else Except.ok ((List.range size).map draw)

/-- `rand_distr::Normal::new(mean, std)`: errors when `std < 0`, otherwise
a sampler sending a standard draw `z` to `mean + std * z`. -/
def Normal.new (mean std : ℚ) : Except String (ℚ → ℚ) :=
  if std < 0 then Except.error normalPanicMsg
  else Except.ok (fun z => mean + std * z)

/-- `Measure::simulate(measure, std)` (main.rs lines 29-39): for each value
`val` of the input, `Normal::new(val, std).unwrap()` then one sample.  The
`unwrap` panics on the first element whenever `std < 0`. -/
def Measure.simulate : List ℚ → ℚ → (ℕ → ℚ) → Except String (List ℚ)
  | [], _, _ => Except.ok []
  | v :: t, std, draw =>
    match Normal.new v std with
    | Except.error e => Except.error e
    | Except.ok f =>
      match Measure.simulate t std (fun i => draw (i + 1)) with
      | Except.error e => Except.error e
      | Except.ok r => Except.ok (f (draw 0) :: r)

/-- `Measure::mean_difference(model, test)` (main.rs lines 41-50):
`model.iter().zip(test).map(|(a, b)| (a - b).abs()).sum() / model.len()`.
The zip silently truncates to the shorter list and there is no check that
the lengths agree or are nonzero. -/
def Measure.mean_difference (model test : List ℚ) : ℚ :=
  (((model.zip test).map (fun p => |p.1 - p.2|)).sum) / model.length

/-! ## Embedding of `clean_mae_calc` (src/simulator/src/main.rs, lines 53-67) -/

/-- The error function `erf x = 2/√π · ∫ t in 0..x, exp (-t²)`, the
mathematical contract of `statrs::function::erf::erf`. -/
noncomputable def erf (x : ℝ) : ℝ :=
  2 / Real.sqrt Real.pi * ∫ t in (0:ℝ)..x, Real.exp (-t ^ 2)

/-- The closure on main.rs lines 61-63 ("main formula"):
`m * erf(m / SQRT_2 / sigma) + SQRT_2 * sigma * (-0.5 * (m / sigma).powi(2)).exp() / PI.sqrt()`. -/
noncomputable def expectedAbsDiff (m sigma : ℝ) : ℝ :=
  m * erf (m / Real.sqrt 2 / sigma) +
    Real.sqrt 2 * sigma * Real.exp (-0.5 * (m / sigma) ^ 2) / Real.sqrt Real.pi

/-- Linear interpolation on one segment of the table. -/
noncomputable def lerpSeg (x0 y0 x1 y1 p : ℝ) : ℝ :=
  y0 + (y1 - y0) * (p - x0) / (x1 - x0)

/-- Scan of the tail of the table: `q` is the last entry already passed
(so the query `p` is known to lie strictly beyond `q`'s x-value); the
first entry whose x-value reaches `p` closes the bracketing segment, and
a query beyond the whole table yields the last y-value. -/
noncomputable def interpGo : ℝ × ℝ → List (ℝ × ℝ) → ℝ → ℝ
  | q, [], _ => q.2
  | q, r :: t, p => if p ≤ r.1 then lerpSeg q.1 q.2 r.1 r.2 p else interpGo r t p

/-- NumPy-style linear interpolation over a table of (x, y) pairs
(the contract of the `interp` crate): queries at or below the first
x-entry return the first y-entry, queries beyond the last x-entry return
the last y-entry, interior queries are linearly interpolated.  The code
never calls it with an empty table, so the `[]` value is irrelevant. -/
noncomputable def interpOn : List (ℝ × ℝ) → ℝ → ℝ
  | [], _ => 0
  | q :: t, p => if p ≤ q.1 then q.2 else interpGo q t p

/-- `interp::interp(xp, fp, x)`. -/
noncomputable def interp (xp fp : List ℝ) (p : ℝ) : ℝ :=
  interpOn (xp.zip fp) p

/-- `itertools_num::linspace(a, b, n)`: `n` points `a + (b - a)/(n-1) * i`
for `i = 0, …, n-1`. -/
noncomputable def linspace (a b : ℝ) (n : ℕ) : List ℝ :=
  (List.range n).map (fun i : ℕ => a + (b - a) / ((n - 1 : ℕ) : ℝ) * (i : ℝ))

/-- `clean_mae_calc(phi, sigma_x, sigma_y)` (main.rs lines 53-67):
combine the noise scales in quadrature, build the 10,000-point table of
the closed-form expected-absolute-difference curve over `[0, 5σ]`, and
invert it at `phi` by interpolation.  The mapped closure is
`expectedAbsDiff`, the named form of the inline Rust closure. -/
noncomputable def clean_mae_calc (phi sigma_x sigma_y : ℝ) : ℝ :=
  let sigma := Real.sqrt (sigma_x ^ 2 + sigma_y ^ 2)
  let h_range : List ℝ := linspace 0 (5 * sigma) 10000
  let phi_range : List ℝ := h_range.map (fun m => expectedAbsDiff m sigma)
  interp phi_range h_range phi

/-- The combined noise scale `sqrt(sigma_x² + sigma_y²)`. -/
noncomputable def sigmaComb (sigma_x sigma_y : ℝ) : ℝ :=
  Real.sqrt (sigma_x ^ 2 + sigma_y ^ 2)

/-- Closed form of the `i`-th entry of the `h_range` table of
`clean_mae_calc`. -/
noncomputable def gridH (sigma_x sigma_y : ℝ) (i : ℕ) : ℝ :=
  5 * sigmaComb sigma_x sigma_y * i / 9999

/-- Closed form of the `i`-th entry of the `phi_range` table of
`clean_mae_calc`. -/
noncomputable def gridPhi (sigma_x sigma_y : ℝ) (i : ℕ) : ℝ :=
  expectedAbsDiff (gridH sigma_x sigma_y i) (sigmaComb sigma_x sigma_y)

/-- The computation described by the specification of `clean_mae_calc`
(spec §4.2, steps 1-4), written from the spec's words: quadrature sum,
10,000 uniformly spaced grid points over `[0, 5·sigma_combined]`,
`phi_grid[i] = h·erf(h/(√2·σ)) + √2·σ·exp(-h²/(2σ²))/√π`, then inversion
of the table at `phi_obs` by interpolation. -/
noncomputable def cleanMaeSpec (phi_obs sigma_x sigma_y : ℝ) : ℝ :=
  let sigma_combined := Real.sqrt (sigma_x ^ 2 + sigma_y ^ 2)
  let h : ℕ → ℝ := fun i => 5 * sigma_combined * i / 9999
  let phi_of : ℕ → ℝ := fun i =>
    h i * erf (h i / (Real.sqrt 2 * sigma_combined)) +
      Real.sqrt 2 * sigma_combined *
        Real.exp (-(h i) ^ 2 / (2 * sigma_combined ^ 2)) / Real.sqrt Real.pi
  interp ((List.range 10000).map phi_of) ((List.range 10000).map h) phi_obs

/-! ## Helper lemmas for `Measure.mean_difference` -/

theorem sum_zip_abs_comm (a : List ℚ) : ∀ b : List ℚ,
    ((a.zip b).map (fun p => |p.1 - p.2|)).sum
      = ((b.zip a).map (fun p => |p.1 - p.2|)).sum := by
  induction a with
  | nil => intro b; simp
  | cons x a' ih =>
    intro b
    cases b with
    | nil => simp
    | cons y b' => simp [ih b', abs_sub_comm x y]

theorem sum_zip_abs_nonneg (a b : List ℚ) :
    0 ≤ ((a.zip b).map (fun p => |p.1 - p.2|)).sum := by
  apply List.sum_nonneg
  intro q hq
  rcases List.mem_map.mp hq with ⟨p, _, rfl⟩
  exact abs_nonneg _

theorem sum_zip_abs_eq_zero (a : List ℚ) : ∀ b : List ℚ, a.length = b.length →
    (((a.zip b).map (fun p => |p.1 - p.2|)).sum = 0 ↔ a = b) := by
  induction a with
  | nil =>
    intro b hb
    cases b with
    | nil => simp
    | cons y b' => simp at hb
  | cons x a' ih =>
    intro b hb
    cases b with
    | nil => simp at hb
    | cons y b' =>
      have hb' : a'.length = b'.length := by simpa using hb
      have h1 : (0:ℚ) ≤ |x - y| := abs_nonneg _
      have h2 := sum_zip_abs_nonneg a' b'
      simp only [List.zip_cons_cons, List.map_cons, List.sum_cons]
      rw [add_eq_zero_iff_of_nonneg h1 h2, abs_eq_zero, sub_eq_zero, ih b' hb']
      simp

theorem sum_zip_abs_eq_range_sum (a : List ℚ) : ∀ b : List ℚ, a.length = b.length →
    ((a.zip b).map (fun p => |p.1 - p.2|)).sum
      = ∑ i in Finset.range a.length, |a.getD i 0 - b.getD i 0| := by
  induction a with
  | nil => intro b hb; simp
  | cons x a' ih =>
    intro b hb
    cases b with
    | nil => simp at hb
    | cons y b' =>
      have hb' : a'.length = b'.length := by simpa using hb
      simp only [List.zip_cons_cons, List.map_cons, List.sum_cons, List.length_cons]
      rw [Finset.sum_range_succ', ih b' hb']
      simp [add_comm]

/-! ## Claims C5, C8, C9 -/

/-- Claim C5 counterexample: `mean_difference` given sequences of unequal
lengths does not fail with a LengthMismatch; it silently returns a value
(the zip truncates to the shorter list, and the sum is divided by the
length of the first argument). -/
theorem mean_difference_no_length_check :
    Measure.mean_difference [3, 5] [1] = 1 := by
  unfold Measure.mean_difference
  norm_num

/-- Claim C5 (amended): for sequences of equal nonzero length,
`mean_difference` returns the arithmetic mean of `|a[i] - b[i]|` over the
paired positions; but no length validation is performed anywhere. -/
theorem mean_difference_is_mean (a b : List ℚ) (hlen : a.length = b.length)
    (_hne : a ≠ []) :
    Measure.mean_difference a b
      = (∑ i in Finset.range a.length, |a.getD i 0 - b.getD i 0|) / a.length := by
  unfold Measure.mean_difference
  rw [sum_zip_abs_eq_range_sum a b hlen]

/-- Witness for the amended claim C5 at concrete input. -/
theorem mean_difference_is_mean_witness :
    ([1, 2] : List ℚ).length = ([3, 7] : List ℚ).length ∧ ([1, 2] : List ℚ) ≠ [] ∧
      Measure.mean_difference [1, 2] [3, 7]
        = (∑ i in Finset.range ([1, 2] : List ℚ).length,
            |([1, 2] : List ℚ).getD i 0 - ([3, 7] : List ℚ).getD i 0|)
          / ([1, 2] : List ℚ).length :=
  ⟨by decide, by decide, mean_difference_is_mean [1, 2] [3, 7] (by decide) (by decide)⟩

/-- Claim C8: for equal-length non-empty sequences, `mean_difference` is
symmetric in its two arguments, and it is zero iff the sequences are
identical elementwise. -/
theorem mean_difference_symm_and_zero_iff (a b : List ℚ)
    (hlen : a.length = b.length) (hne : a ≠ []) :
    Measure.mean_difference a b = Measure.mean_difference b a ∧
      (Measure.mean_difference a b = 0 ↔ a = b) := by
  constructor
  · unfold Measure.mean_difference
    rw [sum_zip_abs_comm a b, hlen]
  · unfold Measure.mean_difference
    have hlpos : 0 < a.length := List.length_pos.mpr hne
    have hl0 : (a.length : ℚ) ≠ 0 := Nat.cast_ne_zero.mpr (Nat.pos_iff_ne_zero.mp hlpos)
    rw [div_eq_zero_iff]
    constructor
    · intro h
      rcases h with h | h
      · exact (sum_zip_abs_eq_zero a b hlen).mp h
      · exact absurd h hl0
    · intro h
      exact Or.inl ((sum_zip_abs_eq_zero a b hlen).mpr h)

/-- Witness for claim C8 at concrete input. -/
theorem mean_difference_symm_and_zero_iff_witness :
    ([1, 4] : List ℚ).length = ([4, 1] : List ℚ).length ∧ ([1, 4] : List ℚ) ≠ [] ∧
      (Measure.mean_difference [1, 4] [4, 1] = Measure.mean_difference [4, 1] [1, 4] ∧
        (Measure.mean_difference [1, 4] [4, 1] = 0 ↔ ([1, 4] : List ℚ) = [4, 1])) :=
  ⟨by decide, by decide, mean_difference_symm_and_zero_iff [1, 4] [4, 1] (by decide) (by decide)⟩

/-- Claim C9 counterexample: `Measure::new` performs no validation of
`size`; with `size = 0` (and a valid range) it succeeds with an empty
vector instead of rejecting the parameters. -/
theorem measure_new_accepts_size_zero :
    Measure.new 0 1 2 (fun _ => 0) = Except.ok [] := by
  norm_num [Measure.new]

/-- Claim C9 (amended): `Measure` itself contains no parameter checks.
`low > high` panics inside `Uniform::new_inclusive`; a negative `std`
panics inside `Measure::simulate` via `Normal::new(..).unwrap()` (on
nonempty input); and `size = 0` is accepted, yielding an empty vector. -/
theorem measure_validation_behaviour (size : ℕ) (low high std : ℚ)
    (draw : ℕ → ℚ) (v : ℚ) (t : List ℚ) (hlh : high < low) (hstd : std < 0) :
    Measure.new size low high draw = Except.error uniformPanicMsg ∧
      Measure.simulate (v :: t) std draw = Except.error normalPanicMsg ∧
      Measure.new 0 high low draw = Except.ok [] := by
  refine ⟨?_, ?_, ?_⟩
  · simp [Measure.new, hlh]
  · simp [Measure.simulate, Normal.new, hstd]
  · simp [Measure.new, not_lt.mpr (le_of_lt hlh)]

/-- Witness for the amended claim C9 at concrete input. -/
theorem measure_validation_behaviour_witness :
    (1 : ℚ) < 2 ∧ (-1 : ℚ) < 0 ∧
      (Measure.new 3 2 1 (fun _ => 0) = Except.error uniformPanicMsg ∧
        Measure.simulate [5] (-1) (fun _ => 0) = Except.error normalPanicMsg ∧
        Measure.new 0 1 2 (fun _ => 0) = Except.ok []) :=
  ⟨by norm_num, by norm_num,
    measure_validation_behaviour 3 2 1 (-1) (fun _ => 0) 5 [] (by norm_num) (by norm_num)⟩

/-! ## Lemmas about the interpolation routine -/

theorem pairwise_snd_le_getLast {q : ℝ × ℝ} {t : List (ℝ × ℝ)}
    (hy : List.Pairwise (fun a b : ℝ × ℝ => a.2 ≤ b.2) (q :: t)) :
    q.2 ≤ ((q :: t).getLast (List.cons_ne_nil q t)).2 := by
  cases t with
  | nil => simp
  | cons r t' =>
    rw [List.getLast_cons (List.cons_ne_nil r t')]
    exact (List.pairwise_cons.mp hy).1 _ (List.getLast_mem _)

theorem interpGo_above (t : List (ℝ × ℝ)) : ∀ (q : ℝ × ℝ) (p : ℝ),
    (∀ r ∈ t, r.1 < p) →
    interpGo q t p = ((q :: t).getLast (List.cons_ne_nil q t)).2 := by
  induction t with
  | nil => intro q p _; simp [interpGo]
  | cons r t' ih =>
    intro q p h
    have hr : r.1 < p := h r (List.mem_cons_self r t')
    rw [List.getLast_cons (List.cons_ne_nil r t')]
    simp only [interpGo, if_neg (not_le.mpr hr)]
    exact ih r p (fun s hs => h s (List.mem_cons_of_mem r hs))

theorem interpOn_above (L : List (ℝ × ℝ)) (hL : L ≠ []) (p : ℝ)
    (h : ∀ r ∈ L, r.1 < p) : interpOn L p = (L.getLast hL).2 := by
  cases L with
  | nil => exact absurd rfl hL
  | cons q t =>
    have hq : q.1 < p := h q (List.mem_cons_self q t)
    simp only [interpOn, if_neg (not_le.mpr hq)]
    exact interpGo_above t q p (fun r hr => h r (List.mem_cons_of_mem q hr))

theorem interpOn_below (L : List (ℝ × ℝ)) (hL : L ≠ []) (p : ℝ)
    (h : p ≤ (L.head hL).1) : interpOn L p = (L.head hL).2 := by
  cases L with
  | nil => exact absurd rfl hL
  | cons q t =>
    simp only [List.head_cons] at h ⊢
    simp only [interpOn, if_pos h]

theorem interpGo_hit (t : List (ℝ × ℝ)) : ∀ (q : ℝ × ℝ) (j : ℕ) (hj : j < t.length),
    List.Pairwise (fun a b : ℝ × ℝ => a.1 < b.1) (q :: t) →
    interpGo q t ((t.get ⟨j, hj⟩).1) = (t.get ⟨j, hj⟩).2 := by
  induction t with
  | nil => intro q j hj _; exact absurd hj (by simp)
  | cons r t' ih =>
    intro q j hj hx
    have hqr : q.1 < r.1 := (List.pairwise_cons.mp hx).1 r (List.mem_cons_self r t')
    cases j with
    | zero =>
      show interpGo q (r :: t') r.1 = r.2
      simp only [interpGo, if_pos (le_refl r.1), lerpSeg]
      have hne : r.1 - q.1 ≠ 0 := sub_ne_zero.mpr (ne_of_gt hqr)
      rw [mul_div_assoc, div_self hne, mul_one]
      ring
    | succ k =>
      have hk : k < t'.length := by simpa using hj
      have hx' : List.Pairwise (fun a b : ℝ × ℝ => a.1 < b.1) (r :: t') :=
        (List.pairwise_cons.mp hx).2
      have hra : r.1 < (t'.get ⟨k, hk⟩).1 :=
        (List.pairwise_cons.mp hx').1 _ (t'.get_mem k hk)
      show interpGo q (r :: t') ((t'.get ⟨k, hk⟩).1) = (t'.get ⟨k, hk⟩).2
      simp only [interpGo, if_neg (not_le.mpr hra)]
      exact ih r k hk hx'

theorem interpOn_hit (L : List (ℝ × ℝ)) (k : ℕ) (hk : k < L.length)
    (hx : List.Pairwise (fun a b : ℝ × ℝ => a.1 < b.1) L) :
    interpOn L ((L.get ⟨k, hk⟩).1) = (L.get ⟨k, hk⟩).2 := by
  cases L with
  | nil => exact absurd hk (by simp)
  | cons q t =>
    cases k with
    | zero =>
      show interpOn (q :: t) q.1 = q.2
      simp [interpOn]
    | succ k =>
      have hk' : k < t.length := by simpa using hk
      have hqa : q.1 < (t.get ⟨k, hk'⟩).1 :=
        (List.pairwise_cons.mp hx).1 _ (t.get_mem k hk')
      show interpOn (q :: t) ((t.get ⟨k, hk'⟩).1) = (t.get ⟨k, hk'⟩).2
      simp only [interpOn, if_neg (not_le.mpr hqa)]
      exact interpGo_hit t q k hk' hx

theorem interpGo_mem (t : List (ℝ × ℝ)) : ∀ (q : ℝ × ℝ) (p : ℝ),
    List.Pairwise (fun a b : ℝ × ℝ => a.1 < b.1) (q :: t) →
    List.Pairwise (fun a b : ℝ × ℝ => a.2 ≤ b.2) (q :: t) →
    q.1 < p →
    q.2 ≤ interpGo q t p ∧ interpGo q t p ≤ ((q :: t).getLast (List.cons_ne_nil q t)).2 := by
  induction t with
  | nil =>
    intro q p _ _ _
    constructor
    · simp [interpGo]
    · simp [interpGo]
  | cons r t' ih =>
    intro q p hx hy hp
    have hqr : q.1 < r.1 := (List.pairwise_cons.mp hx).1 r (List.mem_cons_self r t')
    have hqr2 : q.2 ≤ r.2 := (List.pairwise_cons.mp hy).1 r (List.mem_cons_self r t')
    have hx' := (List.pairwise_cons.mp hx).2
    have hy' := (List.pairwise_cons.mp hy).2
    rw [List.getLast_cons (List.cons_ne_nil r t')]
    by_cases hpr : p ≤ r.1
    · simp only [interpGo, if_pos hpr, lerpSeg]
      have hd : 0 < r.1 - q.1 := sub_pos.mpr hqr
      have hnum0 : 0 ≤ p - q.1 := le_of_lt (sub_pos.mpr hp)
      have hnum1 : p - q.1 ≤ r.1 - q.1 := by linarith
      have hratio0 : 0 ≤ (p - q.1) / (r.1 - q.1) := div_nonneg hnum0 (le_of_lt hd)
      have hratio1 : (p - q.1) / (r.1 - q.1) ≤ 1 := (div_le_one hd).mpr hnum1
      have hr2 : 0 ≤ r.2 - q.2 := sub_nonneg.mpr hqr2
      constructor
      · have hprod : 0 ≤ (r.2 - q.2) * ((p - q.1) / (r.1 - q.1)) := mul_nonneg hr2 hratio0
        rw [mul_div_assoc]
        linarith
      · have h1 : (r.2 - q.2) * ((p - q.1) / (r.1 - q.1)) ≤ (r.2 - q.2) * 1 :=
          mul_le_mul_of_nonneg_left hratio1 hr2
        have h2 : r.2 ≤ ((r :: t').getLast (List.cons_ne_nil r t')).2 :=
          pairwise_snd_le_getLast hy'
        rw [mul_div_assoc]
        linarith
    · have hrp : r.1 < p := not_le.mp hpr
      simp only [interpGo, if_neg hpr]
      have hih := ih r p hx' hy' hrp
      exact ⟨le_trans hqr2 hih.1, hih.2⟩

theorem interpOn_mem (L : List (ℝ × ℝ)) (hL : L ≠ []) (p : ℝ)
    (hx : List.Pairwise (fun a b : ℝ × ℝ => a.1 < b.1) L)
    (hy : List.Pairwise (fun a b : ℝ × ℝ => a.2 ≤ b.2) L) :
    (L.head hL).2 ≤ interpOn L p ∧ interpOn L p ≤ (L.getLast hL).2 := by
  cases L with
  | nil => exact absurd rfl hL
  | cons q t =>
    simp only [List.head_cons]
    by_cases hpq : p ≤ q.1
    · simp only [interpOn, if_pos hpq]
      exact ⟨le_refl _, pairwise_snd_le_getLast hy⟩
    · simp only [interpOn, if_neg hpq]
      exact interpGo_mem t q p hx hy (not_le.mp hpq)

/-! ## The tables of `clean_mae_calc` in closed form -/

theorem mapRange_ne_nil (G : ℕ → ℝ × ℝ) : (List.range 10000).map G ≠ [] := by
  simp

theorem mapRange_getLast (G : ℕ → ℝ × ℝ) :
    ((List.range 10000).map G).getLast (mapRange_ne_nil G) = G 9999 := by
  rw [List.getLast_eq_getElem]
  simp

theorem mapRange_head (G : ℕ → ℝ × ℝ) :
    ((List.range 10000).map G).head (mapRange_ne_nil G) = G 0 := by
  rw [List.head_eq_getElem]
  simp

theorem mapRange_get (G : ℕ → ℝ × ℝ) (k : ℕ)
    (hk : k < ((List.range 10000).map G).length) :
    ((List.range 10000).map G).get ⟨k, hk⟩ = G k := by
  simp

theorem sigmaComb_nonneg (sx sy : ℝ) : 0 ≤ sigmaComb sx sy := Real.sqrt_nonneg _

theorem gridH_nonneg (sx sy : ℝ) (i : ℕ) : 0 ≤ gridH sx sy i := by
  unfold gridH
  have h := sigmaComb_nonneg sx sy
  positivity

theorem gridH_lt (sx sy : ℝ) (hσ : 0 < sigmaComb sx sy) {i j : ℕ} (hij : i < j) :
    gridH sx sy i < gridH sx sy j := by
  unfold gridH
  have hij' : (i : ℝ) < j := Nat.cast_lt.mpr hij
  rw [div_lt_div_iff₀ (by norm_num) (by norm_num)]
  have h5 : 0 < 5 * sigmaComb sx sy := by linarith
  nlinarith

theorem gridH_le_of_le (sx sy : ℝ) {i j : ℕ} (hij : i ≤ j) :
    gridH sx sy i ≤ gridH sx sy j := by
  unfold gridH
  have hσ := sigmaComb_nonneg sx sy
  have hij' : (i : ℝ) ≤ j := Nat.cast_le.mpr hij
  rw [div_le_div_iff₀ (by norm_num) (by norm_num)]
  nlinarith

theorem gridH_zero (sx sy : ℝ) : gridH sx sy 0 = 0 := by simp [gridH]

theorem gridH_last (sx sy : ℝ) : gridH sx sy 9999 = 5 * sigmaComb sx sy := by
  unfold gridH
  rw [mul_div_assoc]
  norm_num

theorem gridH_le_top (sx sy : ℝ) {i : ℕ} (hi : i ≤ 9999) :
    gridH sx sy i ≤ 5 * sigmaComb sx sy := by
  rw [← gridH_last sx sy]
  exact gridH_le_of_le sx sy hi

theorem linspace_eq (sx sy : ℝ) :
    linspace 0 (5 * sigmaComb sx sy) 10000 = (List.range 10000).map (gridH sx sy) := by
  unfold linspace gridH
  have h : (fun i : ℕ => (0:ℝ) + (5 * sigmaComb sx sy - 0) / ((10000 - 1 : ℕ) : ℝ) * (i : ℝ))
      = fun i : ℕ => 5 * sigmaComb sx sy * i / 9999 := by
    funext i
    have hc : ((10000 - 1 : ℕ) : ℝ) = 9999 := by norm_num
    rw [hc]
    ring
  rw [h]

theorem clean_mae_calc_eq (p sx sy : ℝ) :
    clean_mae_calc p sx sy
      = interpOn ((List.range 10000).map
          (fun i => (gridPhi sx sy i, gridH sx sy i))) p := by
  show interp ((linspace 0 (5 * sigmaComb sx sy) 10000).map
      (fun m => expectedAbsDiff m (sigmaComb sx sy)))
    (linspace 0 (5 * sigmaComb sx sy) 10000) p = _
  rw [linspace_eq sx sy]
  unfold interp
  rw [List.map_map, List.zip_map']
  have h : (fun i : ℕ =>
      (((fun m => expectedAbsDiff m (sigmaComb sx sy)) ∘ gridH sx sy) i, gridH sx sy i))
      = fun i : ℕ => (gridPhi sx sy i, gridH sx sy i) := by
    funext i
    simp [Function.comp, gridPhi]
  rw [h]

/-! ## Analysis of `erf` and of the closed-form curve -/

theorem continuous_gaussKernel : Continuous fun t : ℝ => Real.exp (-t ^ 2) :=
  Real.continuous_exp.comp (continuous_pow 2).neg

theorem erf_hasDerivAt (x : ℝ) :
    HasDerivAt erf (2 / Real.sqrt Real.pi * Real.exp (-x ^ 2)) x := by
  have h : HasDerivAt (fun u : ℝ => ∫ t in (0:ℝ)..u, Real.exp (-t ^ 2))
      (Real.exp (-x ^ 2)) x :=
    intervalIntegral.integral_hasDerivAt_right
      (continuous_gaussKernel.intervalIntegrable 0 x)
      (continuous_gaussKernel.stronglyMeasurableAtFilter _ _)
      continuous_gaussKernel.continuousAt
  exact h.const_mul (2 / Real.sqrt Real.pi)

theorem erf_nonneg {x : ℝ} (hx : 0 ≤ x) : 0 ≤ erf x := by
  apply mul_nonneg
  · positivity
  · exact intervalIntegral.integral_nonneg hx (fun u _ => (Real.exp_pos _).le)

theorem erf_pos {x : ℝ} (hx : 0 < x) : 0 < erf x := by
  apply mul_pos
  · positivity
  · exact intervalIntegral.intervalIntegral_pos_of_pos_on
      (continuous_gaussKernel.intervalIntegrable 0 x)
      (fun u _ => Real.exp_pos _) hx

theorem erf_le_one {x : ℝ} (hx : 0 ≤ x) : erf x ≤ 1 := by
  have hsp : (0:ℝ) < Real.sqrt Real.pi := Real.sqrt_pos.mpr Real.pi_pos
  have hInt : MeasureTheory.IntegrableOn (fun t : ℝ => Real.exp (-t ^ 2)) (Set.Ioi 0) := by
    have h1 : MeasureTheory.Integrable fun t : ℝ => Real.exp (-1 * t ^ 2) :=
      integrable_exp_neg_mul_sq one_pos
    have h2 : MeasureTheory.Integrable fun t : ℝ => Real.exp (-t ^ 2) := by
      simpa using h1
    exact h2.integrableOn
  have hkey : (∫ t in (0:ℝ)..x, Real.exp (-t ^ 2)) ≤ Real.sqrt Real.pi / 2 := by
    rw [intervalIntegral.integral_of_le hx]
    have hmono : (∫ t in Set.Ioc (0:ℝ) x, Real.exp (-t ^ 2))
        ≤ ∫ t in Set.Ioi (0:ℝ), Real.exp (-t ^ 2) :=
      MeasureTheory.setIntegral_mono_set hInt
        (Filter.Eventually.of_forall (fun t => (Real.exp_pos _).le))
        (HasSubset.Subset.eventuallyLE Set.Ioc_subset_Ioi_self)
    have hval : (∫ t in Set.Ioi (0:ℝ), Real.exp (-t ^ 2)) = Real.sqrt Real.pi / 2 := by
      have h := integral_gaussian_Ioi 1
      simpa using h
    linarith
  show 2 / Real.sqrt Real.pi * (∫ t in (0:ℝ)..x, Real.exp (-t ^ 2)) ≤ 1
  have h2 : (0:ℝ) ≤ 2 / Real.sqrt Real.pi := by positivity
  calc 2 / Real.sqrt Real.pi * (∫ t in (0:ℝ)..x, Real.exp (-t ^ 2))
      ≤ 2 / Real.sqrt Real.pi * (Real.sqrt Real.pi / 2) := mul_le_mul_of_nonneg_left hkey h2
    _ = 1 := by field_simp

theorem expectedAbsDiff_hasDerivAt (sigma : ℝ) (hσ : sigma ≠ 0) (m : ℝ) :
    HasDerivAt (fun x => expectedAbsDiff x sigma) (erf (m / Real.sqrt 2 / sigma)) m := by
  have hs2 : Real.sqrt 2 ≠ 0 := by positivity
  have hsp : Real.sqrt Real.pi ≠ 0 := by positivity
  have hs2sq : Real.sqrt 2 ^ 2 = 2 := Real.sq_sqrt (by norm_num)
  have h1 : HasDerivAt (fun x : ℝ => x / Real.sqrt 2 / sigma) (1 / Real.sqrt 2 / sigma) m :=
    ((hasDerivAt_id m).div_const (Real.sqrt 2)).div_const sigma
  have h2 : HasDerivAt (fun x : ℝ => erf (x / Real.sqrt 2 / sigma))
      (2 / Real.sqrt Real.pi * Real.exp (-(m / Real.sqrt 2 / sigma) ^ 2)
        * (1 / Real.sqrt 2 / sigma)) m :=
    (erf_hasDerivAt (m / Real.sqrt 2 / sigma)).comp m h1
  have h3 : HasDerivAt (fun x : ℝ => x * erf (x / Real.sqrt 2 / sigma))
      (1 * erf (m / Real.sqrt 2 / sigma) +
        m * (2 / Real.sqrt Real.pi * Real.exp (-(m / Real.sqrt 2 / sigma) ^ 2)
          * (1 / Real.sqrt 2 / sigma))) m :=
    (hasDerivAt_id m).mul h2
  have h4 : HasDerivAt (fun x : ℝ => -0.5 * (x / sigma) ^ 2) (-(m / sigma ^ 2)) m := by
    have h := (((hasDerivAt_id m).div_const sigma).pow 2).const_mul (-0.5 : ℝ)
    convert h using 1
    simp only [id_eq]
    push_cast
    ring
  have h5 : HasDerivAt (fun x : ℝ =>
      Real.sqrt 2 * sigma * Real.exp (-0.5 * (x / sigma) ^ 2) / Real.sqrt Real.pi)
      (Real.sqrt 2 * sigma * (Real.exp (-0.5 * (m / sigma) ^ 2) * -(m / sigma ^ 2))
        / Real.sqrt Real.pi) m :=
    ((h4.exp).const_mul (Real.sqrt 2 * sigma)).div_const (Real.sqrt Real.pi)
  have h6 : HasDerivAt (fun x : ℝ => expectedAbsDiff x sigma)
      ((1 * erf (m / Real.sqrt 2 / sigma) +
        m * (2 / Real.sqrt Real.pi * Real.exp (-(m / Real.sqrt 2 / sigma) ^ 2)
          * (1 / Real.sqrt 2 / sigma))) +
        Real.sqrt 2 * sigma * (Real.exp (-0.5 * (m / sigma) ^ 2) * -(m / sigma ^ 2))
          / Real.sqrt Real.pi) m := h3.add h5
  have hexp : Real.exp (-(m / Real.sqrt 2 / sigma) ^ 2)
      = Real.exp (-0.5 * (m / sigma) ^ 2) := by
    congr 1
    rw [div_pow, div_pow, hs2sq]
    ring
  rw [hexp] at h6
  have hcancel : m * (2 / Real.sqrt Real.pi * Real.exp (-0.5 * (m / sigma) ^ 2)
        * (1 / Real.sqrt 2 / sigma)) +
      Real.sqrt 2 * sigma * (Real.exp (-0.5 * (m / sigma) ^ 2) * -(m / sigma ^ 2))
        / Real.sqrt Real.pi = 0 := by
    field_simp
    ring_nf
    rw [hs2sq]
    ring
  have hval : (1 * erf (m / Real.sqrt 2 / sigma) +
        m * (2 / Real.sqrt Real.pi * Real.exp (-0.5 * (m / sigma) ^ 2)
          * (1 / Real.sqrt 2 / sigma))) +
        Real.sqrt 2 * sigma * (Real.exp (-0.5 * (m / sigma) ^ 2) * -(m / sigma ^ 2))
          / Real.sqrt Real.pi
      = erf (m / Real.sqrt 2 / sigma) := by
    linarith [hcancel]
  rw [hval] at h6
  exact h6

theorem expectedAbsDiff_strictMonoOn (sigma : ℝ) (hσ : 0 < sigma) :
    StrictMonoOn (fun m => expectedAbsDiff m sigma) (Set.Ici 0) := by
  apply strictMonoOn_of_deriv_pos (convex_Ici 0)
  · have hdiff : Differentiable ℝ fun m => expectedAbsDiff m sigma :=
      fun x => (expectedAbsDiff_hasDerivAt sigma (ne_of_gt hσ) x).differentiableAt
    exact hdiff.continuous.continuousOn
  · intro x hx
    rw [interior_Ici] at hx
    rw [(expectedAbsDiff_hasDerivAt sigma (ne_of_gt hσ) x).deriv]
    exact erf_pos (div_pos (div_pos hx (Real.sqrt_pos.mpr (by norm_num))) hσ)

/-! ## Monotonicity of the tables -/

theorem gridPhi_lt (sx sy : ℝ) (hσ : 0 < sigmaComb sx sy) {i j : ℕ} (hij : i < j) :
    gridPhi sx sy i < gridPhi sx sy j :=
  expectedAbsDiff_strictMonoOn (sigmaComb sx sy) hσ
    (Set.mem_Ici.mpr (gridH_nonneg sx sy i)) (Set.mem_Ici.mpr (gridH_nonneg sx sy j))
    (gridH_lt sx sy hσ hij)

theorem gridPhi_le (sx sy : ℝ) (hσ : 0 < sigmaComb sx sy) {i j : ℕ} (hij : i ≤ j) :
    gridPhi sx sy i ≤ gridPhi sx sy j := by
  rcases lt_or_eq_of_le hij with h | h
  · exact le_of_lt (gridPhi_lt sx sy hσ h)
  · rw [h]

theorem pairs_pairwise_fst (sx sy : ℝ) (hσ : 0 < sigmaComb sx sy) :
    List.Pairwise (fun a b : ℝ × ℝ => a.1 < b.1)
      ((List.range 10000).map (fun i => (gridPhi sx sy i, gridH sx sy i))) := by
  rw [List.pairwise_map]
  exact (List.pairwise_lt_range 10000).imp (fun h => gridPhi_lt sx sy hσ h)

theorem pairs_pairwise_snd (sx sy : ℝ) :
    List.Pairwise (fun a b : ℝ × ℝ => a.2 ≤ b.2)
      ((List.range 10000).map (fun i => (gridPhi sx sy i, gridH sx sy i))) := by
  rw [List.pairwise_map]
  exact (List.pairwise_lt_range 10000).imp (fun h => gridH_le_of_le sx sy (le_of_lt h))

theorem sigmaComb_one_zero : sigmaComb 1 0 = 1 := by
  unfold sigmaComb
  norm_num

theorem sigmaComb_zero_zero : sigmaComb 0 0 = 0 := by
  simp [sigmaComb]

theorem expectedAbsDiff_lt_ten {m : ℝ} (h0 : 0 ≤ m) (h5 : m ≤ 5) :
    expectedAbsDiff m 1 < 10 := by
  unfold expectedAbsDiff
  have hsp : (0:ℝ) < Real.sqrt Real.pi := Real.sqrt_pos.mpr Real.pi_pos
  have harg : 0 ≤ m / Real.sqrt 2 / 1 := by positivity
  have h1 : m * erf (m / Real.sqrt 2 / 1) ≤ 5 * 1 :=
    mul_le_mul h5 (erf_le_one harg) (erf_nonneg harg) (by norm_num)
  have hexp : Real.exp (-0.5 * (m / 1) ^ 2) ≤ 1 := by
    rw [Real.exp_le_one_iff]
    nlinarith [sq_nonneg (m / 1)]
  have hsqrt_le : Real.sqrt 2 ≤ Real.sqrt Real.pi :=
    Real.sqrt_le_sqrt (by nlinarith [Real.pi_gt_three])
  have h2 : Real.sqrt 2 * 1 * Real.exp (-0.5 * (m / 1) ^ 2) / Real.sqrt Real.pi ≤ 1 := by
    rw [div_le_one hsp]
    calc Real.sqrt 2 * 1 * Real.exp (-0.5 * (m / 1) ^ 2)
        ≤ Real.sqrt 2 * 1 * 1 := mul_le_mul_of_nonneg_left hexp (by positivity)
      _ = Real.sqrt 2 := by ring
      _ ≤ Real.sqrt Real.pi := hsqrt_le
  linarith

theorem gridPhi_one_zero_lt_ten {i : ℕ} (hi : i ≤ 9999) : gridPhi 1 0 i < 10 := by
  unfold gridPhi
  rw [sigmaComb_one_zero]
  apply expectedAbsDiff_lt_ten (gridH_nonneg 1 0 i)
  have h := gridH_le_top 1 0 hi
  rw [sigmaComb_one_zero] at h
  linarith

theorem clean_mae_calc_above (sx sy p : ℝ)
    (h : ∀ i : ℕ, i < 10000 → gridPhi sx sy i < p) :
    clean_mae_calc p sx sy = 5 * sigmaComb sx sy := by
  have hmem : ∀ r ∈ (List.range 10000).map
      (fun i => (gridPhi sx sy i, gridH sx sy i)), r.1 < p := by
    intro r hr
    rcases List.mem_map.mp hr with ⟨i, hi, rfl⟩
    exact h i (List.mem_range.mp hi)
  rw [clean_mae_calc_eq, interpOn_above _ (mapRange_ne_nil _) p hmem, mapRange_getLast]
  exact gridH_last sx sy

/-! ## Claims about `clean_mae_calc` -/

/-- Claim C1 counterexample: with `sigma_x = 1`, `sigma_y = 0` the combined
scale is 1 and the last table entry `phi_grid[9999]` is below 6, yet the
query `phi_obs = 10`, far above the table's range, is not rejected with an
OutOfDomain error: the interpolation clamps and returns the last table
value `h_grid[9999] = 5`. -/
theorem clean_mae_calc_no_out_of_domain_error : clean_mae_calc 10 1 0 = 5 := by
  rw [clean_mae_calc_above 1 0 10 (fun i hi => gridPhi_one_zero_lt_ten (by omega))]
  rw [sigmaComb_one_zero]
  norm_num

/-- Claim C1 (amended): a query strictly above the last curve point is
clamped, returning `h_grid[9999] = 5·sigma_combined`; no error is raised. -/
theorem clean_mae_calc_clamps_above (sx sy p : ℝ)
    (hσ : 0 < sigmaComb sx sy) (hp : gridPhi sx sy 9999 < p) :
    clean_mae_calc p sx sy = 5 * sigmaComb sx sy := by
  apply clean_mae_calc_above
  intro i hi
  exact lt_of_le_of_lt (gridPhi_le sx sy hσ (by omega : i ≤ 9999)) hp

/-- Witness for the amended claim C1 at concrete input. -/
theorem clean_mae_calc_clamps_above_witness :
    0 < sigmaComb 1 0 ∧ gridPhi 1 0 9999 < 10 ∧
      clean_mae_calc 10 1 0 = 5 * sigmaComb 1 0 := by
  have h1 : 0 < sigmaComb 1 0 := by rw [sigmaComb_one_zero]; norm_num
  have h2 : gridPhi 1 0 9999 < 10 := gridPhi_one_zero_lt_ten (le_refl 9999)
  exact ⟨h1, h2, clean_mae_calc_clamps_above 1 0 10 h1 h2⟩

/-- Claim C2: round-trip of the forward/inverse model, exactly.  For any
noise scales, querying `clean_mae_calc` at the `i`-th point
`phi_grid[i] = gridPhi` of its own generated curve returns exactly the
`h_grid[i] = gridH` that generated it (so in particular within any
tolerance).  For `sigma_combined > 0` this is interpolation hitting a
table node of a strictly monotone table; for `sigma_combined = 0` both
tables degenerate to zero in exact arithmetic. -/
theorem clean_mae_calc_round_trip (sx sy : ℝ) (i : ℕ) (hi : i < 10000) :
    clean_mae_calc (gridPhi sx sy i) sx sy = gridH sx sy i := by
  rcases eq_or_lt_of_le (sigmaComb_nonneg sx sy) with h0 | hσ
  · have h0' : sigmaComb sx sy = 0 := h0.symm
    have hh : ∀ j : ℕ, gridH sx sy j = 0 := fun j => by simp [gridH, h0']
    have hp : ∀ j : ℕ, gridPhi sx sy j = 0 := fun j => by
      unfold gridPhi expectedAbsDiff
      rw [hh j, h0']
      simp
    rw [hp i, hh i, clean_mae_calc_eq]
    have hG : (fun j : ℕ => (gridPhi sx sy j, gridH sx sy j))
        = fun _ : ℕ => ((0:ℝ), (0:ℝ)) := by
      funext j
      rw [hh j, hp j]
    rw [hG]
    have hle : (0:ℝ) ≤ ((((List.range 10000).map
        (fun _ : ℕ => ((0:ℝ), (0:ℝ)))).head (mapRange_ne_nil _)).1) := by
      rw [mapRange_head]
    rw [interpOn_below _ (mapRange_ne_nil _) 0 hle, mapRange_head]
  · rw [clean_mae_calc_eq]
    have hlen : i < ((List.range 10000).map
        (fun j => (gridPhi sx sy j, gridH sx sy j))).length := by
      simpa using hi
    have hget := mapRange_get (fun j => (gridPhi sx sy j, gridH sx sy j)) i hlen
    have hhit := interpOn_hit _ i hlen (pairs_pairwise_fst sx sy hσ)
    rw [hget] at hhit
    exact hhit

/-- Witness for claim C2 at concrete input. -/
theorem clean_mae_calc_round_trip_witness :
    (0:ℕ) < 10000 ∧ clean_mae_calc (gridPhi 1 0 0) 1 0 = gridH 1 0 0 :=
  ⟨by norm_num, clean_mae_calc_round_trip 1 0 0 (by norm_num)⟩

/-- Claim C7: `clean_mae_calc` is invariant under swapping `sigma_x` and
`sigma_y`, since only the quadrature sum enters the computation. -/
theorem clean_mae_calc_symm (p sx sy : ℝ) :
    clean_mae_calc p sx sy = clean_mae_calc p sy sx := by
  unfold clean_mae_calc
  rw [add_comm (sx ^ 2) (sy ^ 2)]

/-- Claim C4: with `sigma_x = sigma_y = 0` the code divides by
`sigma = 0` inside the closed form.  In the exact (total-division)
embedding every table entry collapses to 0 and the inversion returns 0,
not the queried `phi`; in IEEE arithmetic the same division makes every
table entry NaN.  Either way `clean_mae_calc(1, 0, 0) ≠ 1`: the
degenerate case is not the identity map the spec requires. -/
theorem clean_mae_calc_sigma_zero_degenerate : clean_mae_calc 1 0 0 = 0 := by
  have h0 : sigmaComb 0 0 = 0 := sigmaComb_zero_zero
  have hh : ∀ j : ℕ, gridH 0 0 j = 0 := fun j => by simp [gridH, h0]
  have hp : ∀ j : ℕ, gridPhi 0 0 j = 0 := fun j => by
    unfold gridPhi expectedAbsDiff
    rw [hh j, h0]
    simp
  rw [clean_mae_calc_eq]
  have hG : (fun j : ℕ => (gridPhi 0 0 j, gridH 0 0 j))
      = fun _ : ℕ => ((0:ℝ), (0:ℝ)) := by
    funext j
    rw [hh j, hp j]
  rw [hG]
  have hmem : ∀ r ∈ (List.range 10000).map (fun _ : ℕ => ((0:ℝ), (0:ℝ))), r.1 < 1 := by
    intro r hr
    rcases List.mem_map.mp hr with ⟨j, _, rfl⟩
    norm_num
  rw [interpOn_above _ (mapRange_ne_nil _) 1 hmem, mapRange_getLast]

/-- Claim C6: for a fixed positive combined scale, the `h_range` table of
`clean_mae_calc` is strictly increasing and the mapped `phi_range` table
is non-decreasing, so the inversion by interpolation is well-defined. -/
theorem curve_monotone (sx sy : ℝ) (hσ : 0 < sigmaComb sx sy) :
    List.Pairwise (· < ·) (linspace 0 (5 * sigmaComb sx sy) 10000) ∧
      List.Pairwise (· ≤ ·) ((linspace 0 (5 * sigmaComb sx sy) 10000).map
        (fun m => expectedAbsDiff m (sigmaComb sx sy))) := by
  rw [linspace_eq sx sy]
  constructor
  · rw [List.pairwise_map]
    exact (List.pairwise_lt_range 10000).imp (fun h => gridH_lt sx sy hσ h)
  · rw [List.map_map, List.pairwise_map]
    exact (List.pairwise_lt_range 10000).imp (fun h => gridPhi_le sx sy hσ (le_of_lt h))

/-- Witness for claim C6 at concrete input. -/
theorem curve_monotone_witness :
    0 < sigmaComb 1 0 ∧
      (List.Pairwise (· < ·) (linspace 0 (5 * sigmaComb 1 0) 10000) ∧
        List.Pairwise (· ≤ ·) ((linspace 0 (5 * sigmaComb 1 0) 10000).map
          (fun m => expectedAbsDiff m (sigmaComb 1 0)))) := by
  have h1 : 0 < sigmaComb 1 0 := by rw [sigmaComb_one_zero]; norm_num
  exact ⟨h1, curve_monotone 1 0 h1⟩

/-- Claim C10: for a positive combined scale the returned value always
lies in `[0, 5·sigma_combined]`; a query below the first table entry
returns `h_grid[0] = 0` and a query above the last table entry returns
`h_grid[9999] = 5·sigma_combined` (clamping, not extrapolation). -/
theorem clean_mae_calc_range_and_clamps (sx sy p : ℝ) (hσ : 0 < sigmaComb sx sy) :
    (0 ≤ clean_mae_calc p sx sy ∧ clean_mae_calc p sx sy ≤ 5 * sigmaComb sx sy) ∧
      (p < gridPhi sx sy 0 → clean_mae_calc p sx sy = 0) ∧
      (gridPhi sx sy 9999 < p → clean_mae_calc p sx sy = 5 * sigmaComb sx sy) := by
  refine ⟨?_, ?_, ?_⟩
  · rw [clean_mae_calc_eq]
    have hmem := interpOn_mem _
      (mapRange_ne_nil (fun i => (gridPhi sx sy i, gridH sx sy i))) p
      (pairs_pairwise_fst sx sy hσ) (pairs_pairwise_snd sx sy)
    rw [mapRange_head, mapRange_getLast] at hmem
    constructor
    · calc (0:ℝ) = gridH sx sy 0 := (gridH_zero sx sy).symm
        _ ≤ _ := hmem.1
    · calc _ ≤ gridH sx sy 9999 := hmem.2
        _ = 5 * sigmaComb sx sy := gridH_last sx sy
  · intro hp
    rw [clean_mae_calc_eq]
    have hle : p ≤ ((((List.range 10000).map
        (fun i => (gridPhi sx sy i, gridH sx sy i))).head (mapRange_ne_nil _)).1) := by
      rw [mapRange_head]
      exact le_of_lt hp
    rw [interpOn_below _ (mapRange_ne_nil _) p hle, mapRange_head]
    exact gridH_zero sx sy
  · intro hp
    apply clean_mae_calc_above
    intro i hi
    exact lt_of_le_of_lt (gridPhi_le sx sy hσ (by omega : i ≤ 9999)) hp

/-- Witness for claim C10 at concrete input. -/
theorem clean_mae_calc_range_and_clamps_witness :
    0 < sigmaComb 1 0 ∧
      ((0 ≤ clean_mae_calc 3 1 0 ∧ clean_mae_calc 3 1 0 ≤ 5 * sigmaComb 1 0) ∧
        (3 < gridPhi 1 0 0 → clean_mae_calc 3 1 0 = 0) ∧
        (gridPhi 1 0 9999 < 3 → clean_mae_calc 3 1 0 = 5 * sigmaComb 1 0)) := by
  have h1 : 0 < sigmaComb 1 0 := by rw [sigmaComb_one_zero]; norm_num
  exact ⟨h1, clean_mae_calc_range_and_clamps 1 0 3 h1⟩

/-- Claim C3: `clean_mae_calc` computes exactly the procedure the spec
describes: quadrature combination of the scales, a 10,000-point uniform
`h` grid over `[0, 5·sigma_combined]`, the closed-form curve
`h·erf(h/(√2σ)) + √2σ·exp(-h²/(2σ²))/√π`, and inversion of that table at
`phi` by interpolation. -/
theorem clean_mae_calc_matches_spec (p sx sy : ℝ) :
    clean_mae_calc p sx sy = cleanMaeSpec p sx sy := by
  rw [clean_mae_calc_eq]
  show _ = interp ((List.range 10000).map (fun i : ℕ =>
      gridH sx sy i * erf (gridH sx sy i / (Real.sqrt 2 * sigmaComb sx sy)) +
        Real.sqrt 2 * sigmaComb sx sy *
          Real.exp (-(gridH sx sy i) ^ 2 / (2 * sigmaComb sx sy ^ 2)) / Real.sqrt Real.pi))
    ((List.range 10000).map (fun i : ℕ => gridH sx sy i)) p
  unfold interp
  rw [List.zip_map']
  have hfun : (fun i : ℕ => (gridPhi sx sy i, gridH sx sy i))
      = fun i : ℕ =>
        (gridH sx sy i * erf (gridH sx sy i / (Real.sqrt 2 * sigmaComb sx sy)) +
          Real.sqrt 2 * sigmaComb sx sy *
            Real.exp (-(gridH sx sy i) ^ 2 / (2 * sigmaComb sx sy ^ 2)) / Real.sqrt Real.pi,
          gridH sx sy i) := by
    funext i
    refine Prod.ext ?_ rfl
    show gridPhi sx sy i = _
    unfold gridPhi expectedAbsDiff
    rw [div_div]
    rw [show (-0.5 : ℝ) * (gridH sx sy i / sigmaComb sx sy) ^ 2
        = -(gridH sx sy i) ^ 2 / (2 * sigmaComb sx sy ^ 2) from by rw [div_pow]; ring]
  rw [hfun]
